import Mathlib

/-!
Shallow embedding of `src/zato/discourse_importer/run.py` (zatosource/discourse-importer).

Strings are modelled as Lean `String`s, with the Python string operations the
source uses (`split`, `strip`, `replace`, `in`, `lower`, `' '.join(s.split())`)
re-implemented structurally over `List Char` so they evaluate by kernel
reduction.  Machine-level concerns the source delegates to the standard
library are abstracted as follows:

* `base64.decodestring` is an explicit parameter `dec : String → String`
  threaded through body extraction (no claim exercises its internals).  A
  base64 transfer encoding declared on a list-shaped payload makes the
  source's `_b64decode` call `bytes(body, 'utf8')` on a list, an uncaught
  `TypeError`; the model propagates it as an error value.
* `email.utils.parsedate` results (9-tuples ordered lexicographically, i.e. a
  linear order) are abstracted to `Nat` timestamps stored in the record.
* `email.utils.parseaddr` / `email.header.decode_header` results are stored as
  the `fromName` / `fromEmail` fields of the raw record.
* `random.choice(rand_suffix)` draws are an explicit stream `Nat → Nat`
  consumed left to right, and `uuid4().hex` passwords a stream `Nat → String`.
* The unbounded `while` loop redrawing username suffixes is modelled with
  explicit fuel; the Python loop diverges exactly when every fuel bound
  returns `none`.
-/

namespace DiscourseImporter

/-- The six characters Python's `str.split()` / `str.strip()` treat as whitespace. -/
def pyIsSpace (c : Char) : Bool :=
  c == ' ' || c == '\t' || c == '\n' || c == '\r' || c == '\x0b' || c == '\x0c'

/-- `beginsWith p s` : does `s` start with `p` (Python `s.startswith(p)`)? -/
def beginsWith : List Char → List Char → Bool
  | [], _ => true
  | _ :: _, [] => false
  | p :: ps, c :: cs => p == c && beginsWith ps cs

/-- Python's `needle in hay` operator on strings (substring containment). -/
def containsSub : List Char → List Char → Bool
  | [], needle => needle.isEmpty
  | c :: t, needle => beginsWith needle (c :: t) || containsSub t needle

/-- Python `needle in hay` on `String`s. -/
def pyIn (needle hay : String) : Bool :=
  containsSub hay.data needle.data

/-- Helper for `pySplit`: fuel-driven so that it is structural and reduces in the
kernel.  The fuel is always instantiated with the length of the scanned list,
which suffices because every step consumes at least one character. -/
def pySplitGo (sep : List Char) : Nat → List Char → List Char → List (List Char)
  | _, cur, [] => [cur.reverse]
  | 0, cur, s => [cur.reverse ++ s]
  | fuel + 1, cur, c :: rest =>
    if !sep.isEmpty && beginsWith sep (c :: rest) then
      cur.reverse :: pySplitGo sep fuel [] (rest.drop (sep.length - 1))
    else
      pySplitGo sep fuel (c :: cur) rest

/-- Python `s.split(sep)` for a non-empty separator: all chunks, empties kept.
(For `sep = ""` Python raises `ValueError`; this model returns `[s]` there, and
every theorem that involves a configurable separator assumes it non-empty.) -/
def pySplit (sep s : List Char) : List (List Char) :=
  pySplitGo sep s.length [] s

/-- The prefix of `s` strictly before the first occurrence of `sep`
(`s` itself when `sep` does not occur): the mathematical description of
Python's `s.split(sep)[0]`. -/
def cutBefore (sep : List Char) : List Char → List Char
  | [] => []
  | c :: rest =>
    if !sep.isEmpty && beginsWith sep (c :: rest) then []
    else c :: cutBefore sep rest

/-- Python `s.strip()` on the character list. -/
def pyStripChars (l : List Char) : List Char :=
  ((l.dropWhile pyIsSpace).reverse.dropWhile pyIsSpace).reverse

/-- Python `s.strip()`. -/
def pyStrip (s : String) : String :=
  ⟨pyStripChars s.data⟩

/-- Helper for Python's no-argument `s.split()`: accumulate the current word
(reversed) and break on whitespace runs, discarding empty chunks. -/
def splitWsGo : List Char → List Char → List (List Char)
  | cur, [] => if cur.isEmpty then [] else [cur.reverse]
  | cur, c :: rest =>
    if pyIsSpace c then
      if cur.isEmpty then splitWsGo [] rest
      else cur.reverse :: splitWsGo [] rest
    else
      splitWsGo (c :: cur) rest

/-- Join word lists with single spaces (Python `' '.join(words)`). -/
def joinSpace : List (List Char) → List Char
  | [] => []
  | [w] => w
  | w :: ws => w ++ ' ' :: joinSpace ws

/-- Python `' '.join(s.split())`: collapse internal whitespace runs to single
spaces and drop leading/trailing whitespace. -/
def pyCollapseWs (s : String) : String :=
  ⟨joinSpace (splitWsGo [] s.data)⟩

/-- Helper for `pyReplace`, fuel-driven (fuel = length of the scanned list
suffices: each step consumes at least one character). -/
def pyReplaceGo (pat new : List Char) : Nat → List Char → List Char
  | _, [] => []
  | 0, s => s
  | fuel + 1, c :: rest =>
    if !pat.isEmpty && beginsWith pat (c :: rest) then
      new ++ pyReplaceGo pat new fuel (rest.drop (pat.length - 1))
    else
      c :: pyReplaceGo pat new fuel rest

/-- Python `s.replace(pat, new)` for a non-empty pattern (the only pattern the
source uses is the fixed list tag `"[Zato-discuss] "`). -/
def pyReplace (s pat new : String) : String :=
  ⟨pyReplaceGo pat.data new.data s.data.length s.data⟩

/-- Lexicographic comparison of character lists by code point: Python's `<=`
on strings. -/
def charListLe : List Char → List Char → Bool
  | [], _ => true
  | _ :: _, [] => false
  | a :: as, b :: bs => if a < b then true else if b < a then false else charListLe as bs

/-- Python `a <= b` on strings (code-point lexicographic). -/
def strLe (a b : String) : Bool :=
  charListLe a.data b.data

/-- Python `s.lower()` (the source only lowers ASCII email addresses). -/
def pyLower (s : String) : String :=
  ⟨s.data.map Char.toLower⟩

/-! ### Data model -/

/-- The dynamically-typed value bound to the Python variable `from_`: pass 2 of
`read_mbox` unpacks `_get_name_from`'s pair and passes the email string, while
pass 3 passes the whole `(name, email)` tuple unchanged. -/
inductive FromVal where
  | str (email : String)
  | tup (name : String) (email : String)
deriving DecidableEq, Repr

/-- The result of `msg.get_payload()`: either a string or a (multipart) list of
sub-messages.  The source only ever inspects the first element of a list
(`body[0]`), so a list is modelled by its first sub-message: that sub-message's
`Content-Transfer-Encoding == 'base64'` flag and its own payload. -/
inductive PyPayload where
  | str (s : String)
  | parts (subB64 : Bool) (sub : PyPayload)
deriving DecidableEq, Repr

/-- One raw record of the mbox archive, carrying the header values the source
reads.  `date` abstracts `parsedate(raw['Date'])` (a linearly ordered value);
`fromName`/`fromEmail` abstract `decode_header`/`parseaddr` of `raw['From']`. -/
structure MboxRecord where
  subject : Option String
  messageId : Option String
  date : Nat
  hasInReplyTo : Bool
  references : Option String
  fromName : String
  fromEmail : String
  cteBase64 : Bool
  payload : PyPayload
deriving Repr

/-- The `Message` class: one logical message read from the mbox file. -/
inductive Message : Type where
  | mk (id : Option String) (from_ : FromVal) (subject : String) (body : String)
      (children : List Message) (is_top_level : Bool) (date : Nat)
deriving Repr

def Message.id : Message → Option String
  | .mk i _ _ _ _ _ _ => i

def Message.from_ : Message → FromVal
  | .mk _ f _ _ _ _ _ => f

def Message.subject : Message → String
  | .mk _ _ s _ _ _ _ => s

def Message.body : Message → String
  | .mk _ _ _ b _ _ _ => b

def Message.children : Message → List Message
  | .mk _ _ _ _ c _ _ => c

def Message.is_top_level : Message → Bool
  | .mk _ _ _ _ _ t _ => t

def Message.date : Message → Nat
  | .mk _ _ _ _ _ _ d => d

/-- Replace the (mutable) `children` list of a message. -/
def Message.withChildren : Message → List Message → Message
  | .mk i f s b _ t d, c => .mk i f s b c t d

/-- The uncaught exceptions the model distinguishes: the `TypeError` raised by
`skip_subject in None` or by `bytes(<list>, 'utf8')` inside `_b64decode`, and
`sys.exit(1)` on an absent/empty archive. -/
inductive PyErr where
  | typeError
  | fatalExit
deriving DecidableEq, Repr

/-! ### MessageParser -/

/-- `Message._b64decode`: decode the body iff the carrying message declares a
base64 transfer encoding. -/
def b64maybe (dec : String → String) (isB64 : Bool) (s : String) : String :=
  if isB64 then dec s else s

/-- The `while isinstance(body, list)` loop of `Message.get_body`: repeatedly
take the first sub-message and pass its payload through `_b64decode`.  A
sub-message that declares a base64 transfer encoding while its own payload is
again a list makes `_b64decode` call `bytes(<list>, 'utf8')`: an uncaught
`TypeError`.  (An empty part list — `body[0]` raising `IndexError` — is not
representable: a modelled list always carries its first sub-message.) -/
def descendPayload (dec : String → String) : PyPayload → Except PyErr String
  | .str s => .ok s
  | .parts subB64 (.str s) => .ok (b64maybe dec subB64 s)
  | .parts subB64 (.parts b p) =>
    if subB64 then .error .typeError else descendPayload dec (.parts b p)

/-- `msg.get_payload()` followed by the top-level `_b64decode` call: a base64
transfer encoding declared on a multipart payload raises the same uncaught
`TypeError` (`bytes(<list>, 'utf8')`). -/
def topPayload (dec : String → String) (r : MboxRecord) : Except PyErr String :=
  match r.payload with
  | .str s => .ok (b64maybe dec r.cteBase64 s)
  | .parts b p =>
    if r.cteBase64 then .error .typeError else descendPayload dec (.parts b p)

/-- `Message.get_body`: extract the payload (propagating the `TypeError` of a
base64-flagged multipart), then `body.split(list_footer_start)[0]`,
`body.split('cheers,')[0]`, `body.split('-- ')[0]`, `body.strip()`. -/
def Message.get_body (dec : String → String) (r : MboxRecord)
    (list_footer_start : String) : Except PyErr String :=
  match topPayload dec r with
  | .error e => .error e
  | .ok payload =>
    let body := (pySplit list_footer_start.data payload.data).headD []
    let body := (pySplit "cheers,".data body).headD []
    let body := (pySplit "-- ".data body).headD []
    .ok ⟨pyStripChars body⟩

/-- The fixed migration marker prepended to every subject. -/
def migratedMarker : String := "(Migrated) "

/-- The mailing-list bracket tag stripped from subjects. -/
def zatoTag : String := "[Zato-discuss] "

/-- The banner prepended to top-level bodies. -/
def importBanner : String :=
  "\n<b>(This message has been automatically imported from the retired mailing list)</b>\n\n"

/-- Result of `Message.from_mbox_object`: a message, `None`, or an uncaught
`TypeError` (raised by `skip_subject in subject` when `raw['Subject']` is
`None` and `skip_subject` is non-empty; only the `AttributeError` of
`None.replace` is caught by the source). -/
inductive ParseOutcome where
  | msg (m : Message)
  | absent
  | typeError
deriving Repr

def ParseOutcome.subject? : ParseOutcome → Option String
  | .msg m => some m.subject
  | _ => none

def ParseOutcome.body? : ParseOutcome → Option String
  | .msg m => some m.body
  | _ => none

/-- `Message.from_mbox_object(raw, from_, list_footer_start, skip_subject)`. -/
def Message.from_mbox_object (dec : String → String) (raw : MboxRecord)
    (from_ : FromVal) (list_footer_start skip_subject : String) : ParseOutcome :=
  match raw.subject with
  | none =>
    -- `skip_subject and skip_subject in subject` : `x in None` raises TypeError;
    -- with an empty filter the check short-circuits and `None.replace(...)`
    -- raises AttributeError, which the source catches and turns into `return`.
    if skip_subject ≠ "" then .typeError else .absent
  | some subject =>
    if skip_subject ≠ "" && pyIn skip_subject subject then .absent
    else
      let subject := pyReplace subject zatoTag ""
      let subject := pyCollapseWs subject
      let is_top_level := !raw.hasInReplyTo
      match Message.get_body dec raw list_footer_start with
      | .error _ => .typeError
      | .ok body =>
        if body = "" then .absent
        else
          let body := if is_top_level then importBanner ++ body else body
          .msg (.mk raw.messageId from_ (migratedMarker ++ subject) body []
            is_top_level raw.date)

/-! ### ThreadBuilder (`Importer.read_mbox`) -/

/-- Importer configuration fields consumed by the parsing passes. -/
structure Config where
  list_footer_start : String
  emails_ignore : List String
  emails_require : String
  skip_subject : String
deriving Repr

/-- `Importer._get_name_from`: `(decode_header(name)[0][0], from_.lower())`. -/
def _get_name_from (r : MboxRecord) : String × String :=
  (r.fromName, pyLower r.fromEmail)

/-- Python `dict.__setitem__` on an insertion-ordered association list:
overwrite in place when the key exists, append otherwise. -/
def dictUpdate {α β : Type} [DecidableEq α] : List (α × β) → α → β → List (α × β)
  | [], k, v => [(k, v)]
  | (k', v') :: t, k, v =>
    if k' = k then (k, v) :: t else (k', v') :: dictUpdate t k v

/-- Python `d[k]` as an option (the first — and, with `dictUpdate`, only —
entry with the key). -/
def dictFind {α β : Type} [DecidableEq α] : List (α × β) → α → Option β
  | [], _ => none
  | (k', v) :: t, k => if k' = k then some v else dictFind t k

/-- Python `k in d`. -/
def dictContains {α β : Type} [DecidableEq α] : List (α × β) → α → Bool
  | [], _ => false
  | (k', _) :: t, k => decide (k' = k) || dictContains t k

/-- Left fold that aborts on the first error. -/
def foldE {σ α : Type} (f : σ → α → Except PyErr σ) : σ → List α → Except PyErr σ
  | s, [] => .ok s
  | s, a :: l =>
    match f s a with
    | .ok s' => foldE f s' l
    | .error e => .error e

/-- `self.mbox_messages`: the flat id → `Message` dict, keyed by the raw
`Message-ID` header value (which may be missing, i.e. `None`). -/
abbrev MsgMap := List (Option String × Message)

/-- Pass 1 (author pass): skip senders on the exclusion list or not matching
the required substring, otherwise record `mbox_users[from_] = name`. -/
def pass1_step (cfg : Config) (users : List (String × String)) (r : MboxRecord) :
    List (String × String) :=
  let (name, from_) := _get_name_from r
  if cfg.emails_ignore.contains from_ || !pyIn cfg.emails_require from_ then users
  else dictUpdate users from_ name

/-- Pass 2 (root pass): parse every record whose sender is in `mbox_users` and
index the result by its id. -/
def pass2_step (dec : String → String) (cfg : Config) (users : List (String × String))
    (map : MsgMap) (r : MboxRecord) : Except PyErr MsgMap :=
  let from_ := (_get_name_from r).2
  if !dictContains users from_ then .ok map
  else
    match Message.from_mbox_object dec r (.str from_) cfg.list_footer_start cfg.skip_subject with
    | .msg m => .ok (dictUpdate map m.id m)
    | .absent => .ok map
    | .typeError => .error .typeError

/-- `refs.split('\n')` followed by `[elem.strip() for elem in refs]`. -/
def parseRefs (refsStr : String) : List String :=
  (pySplit "\n".data refsStr.data).map (fun l => ⟨pyStripChars l⟩)

/-- Append a child to the `children` list of the entry with the given key
(the in-place `children.append(child_msg)` of the source). -/
def appendChild : MsgMap → Option String → Message → MsgMap
  | [], _, _ => []
  | (k', m) :: t, k, c =>
    if k' = k then (k', m.withChildren (m.children ++ [c])) :: t
    else (k', m) :: appendChild t k c

/-- Pass 3, inner loop over one reference id: when it matches a known id,
re-parse the record as a child and append it there.  Note the sender filters
of pass 1 are not consulted. -/
def pass3_ref (dec : String → String) (cfg : Config) (r : MboxRecord) (from_ : FromVal)
    (map : MsgMap) (ref : String) : Except PyErr MsgMap :=
  if dictContains map (some ref) then
    match Message.from_mbox_object dec r from_ cfg.list_footer_start cfg.skip_subject with
    | .msg c => .ok (appendChild map (some ref) c)
    | .absent => .ok map
    | .typeError => .error .typeError
  else .ok map

/-- Pass 3 (attachment pass) for one record.  `from_ = self._get_name_from(msg)`
is NOT unpacked in the source, so the whole `(name, email)` tuple is passed to
the parser. -/
def pass3_step (dec : String → String) (cfg : Config) (map : MsgMap) (r : MboxRecord) :
    Except PyErr MsgMap :=
  match r.references with
  | none => .ok map
  | some refsStr =>
    -- `if refs:` — the empty string is falsy.
    if refsStr = "" then .ok map
    else
      foldE (pass3_ref dec cfg r (.tup (_get_name_from r).1 (_get_name_from r).2))
        map (parseRefs refsStr)

/-- The internal structures `read_mbox` populates. -/
structure ImportState where
  mbox_users : List (String × String)
  mbox_messages : MsgMap
deriving Repr

/-- `Importer.read_mbox`: fatal on an empty archive, then the three passes. -/
def read_mbox (dec : String → String) (cfg : Config) (archive : List MboxRecord) :
    Except PyErr ImportState :=
  if archive.isEmpty then .error .fatalExit
  else
    let users := archive.foldl (pass1_step cfg) []
    match foldE (pass2_step dec cfg users) [] archive with
    | .error e => .error e
    | .ok map =>
      match foldE (pass3_step dec cfg) map archive with
      | .error e => .error e
      | .ok map' => .ok ⟨users, map'⟩

/-! ### UserReconciler (`Importer.set_missing_users`) -/

/-- A remote account: the listing yields `{id, username}` and a per-user call
`get_user_email(id, username)` yields the email recorded here. -/
structure RemoteUser where
  id : Nat
  username : String
  email : String
deriving DecidableEq, Repr

/-- `Importer.set_missing_users`: collect the remote emails (`existing`) and
usernames (`self.discourse_users`), then keep the mbox authors whose email is
not remotely present.  The Python `missing_users` set is represented by the
list of missing authors in `mbox_users` iteration order (the allocation step
is invariant under reordering — see the C8 theorem). -/
def set_missing_users (remote : List RemoteUser) (mbox_users : List (String × String)) :
    List String × List String :=
  let existing := remote.map (·.email)
  let discourse_users := remote.map (·.username)
  ((mbox_users.map (·.1)).filter (fun e => !existing.contains e), discourse_users)

/-! ### UsernameAllocator (`Importer.add_missing_users`) -/

/-- The module global `rand_suffix = range(1, 100)`: `random.choice` over it
yields a value `s` with `rand_suffix_lo ≤ s ≤ rand_suffix_hi`. -/
def rand_suffix_lo : Nat := 1

def rand_suffix_hi : Nat := 99

/-- `Importer._get_username`: `email.split('@')[0]`. -/
def _get_username (email : String) : String :=
  ⟨(pySplit "@".data email.data).headD []⟩

/-- `'{}{}'.format(user_name, suffix)`. -/
def suffName (base : String) (s : Nat) : String :=
  base ++ Nat.repr s

/-- The `suffix = choice(rand_suffix); while '{}{}'.format(user_name, suffix)
in used: suffix = choice(rand_suffix)` loop: draw `stream i`, redraw while the
suffixed name is taken.  Returns the chosen suffix and the next stream index;
the Python loop diverges exactly when the result is `none` for every fuel. -/
def drawSuffix (stream : Nat → Nat) : Nat → Nat → String → List String → Option (Nat × Nat)
  | 0, _, _, _ => none
  | fuel + 1, i, base, used =>
    if used.contains (suffName base (stream i)) then drawSuffix stream fuel (i + 1) base used
    else some (stream i, i + 1)

/-- One `client.create_user(name, user_name, email, password)` call. -/
structure CreateUserCall where
  name : String
  user_name : String
  email : String
  password : String
deriving DecidableEq, Repr

/-- The allocation loop of `Importer.add_missing_users` over the sorted missing
emails.  `dup` is membership in the `duplicates` list, `dir` the
`self.mbox_users[item]` display-name lookup, `i`/`j` the next indices into the
`random.choice` / `uuid4` streams, `used` the suffixed names allocated so far. -/
def allocGo (stream : Nat → Nat) (pw : Nat → String) (dup : String → Bool)
    (dir : String → String) (fuel : Nat) :
    Nat → Nat → List String → List String → Option (List CreateUserCall)
  | _, _, _, [] => some []
  | i, j, used, item :: rest =>
    let base := _get_username item
    if dup base then
      match drawSuffix stream fuel i base used with
      | none => none
      | some (sfx, i') =>
        let un := suffName base sfx
        let used' := un :: used
        let un' := if un.length < 3 then un ++ "123" else un
        match allocGo stream pw dup dir fuel i' (j + 1) used' rest with
        | none => none
        | some calls => some (⟨dir item, un', item, pw j⟩ :: calls)
    else
      let un' := if base.length < 3 then base ++ "123" else base
      match allocGo stream pw dup dir fuel i (j + 1) used rest with
      | none => none
      | some calls => some (⟨dir item, un', item, pw j⟩ :: calls)

/-- `Importer.add_missing_users`: compute the duplicate-prone bases from the
whole missing set, then allocate in ascending email order.  `missing` is the
`self.missing_users` set in iteration order; `none` models divergence of the
suffix redraw loop (the fuel bound was exhausted). -/
def add_missing_users (fuel : Nat) (stream : Nat → Nat) (pw : Nat → String)
    (missing : List String) (dir : String → String) : Option (List CreateUserCall) :=
  let new := missing.map _get_username
  let dup := fun b => decide (1 < new.count b)
  allocGo stream pw dup dir fuel 0 0 [] (missing.insertionSort (· ≤ ·))

/-- The driver sequence `if self.set_missing_users(): self.add_missing_users()`
restricted to what determines the created accounts: reconcile against the
remote listing, then allocate. -/
def allocate_after_reconcile (fuel : Nat) (stream : Nat → Nat) (pw : Nat → String)
    (remote : List RemoteUser) (mbox_users : List (String × String)) :
    Option (List CreateUserCall) :=
  let (missing, _discourse_users) := set_missing_users remote mbox_users
  add_missing_users fuel stream pw missing (fun e => (dictFind mbox_users e).getD "")

/-! ### ImportDriver replay (`Importer.create_topics`) -/

/-- One `client.create_topic` call.  `topicIdArg = none` is the three-argument
root-topic call; `topicIdArg = some t` is a child call passing `topic_id = t`
(`t` itself is `none` when the remote response carried no topic id). -/
structure TopicCall where
  category : Nat
  title : String
  raw : String
  topicIdArg : Option (Option Nat)
deriving DecidableEq, Repr

/-- `sorted(self.mbox_messages, key=self.mbox_messages.get)`: Python's stable
sort of the keys by their `Message` values, whose `__lt__` compares `date`
fields.  Sorting the insertion-ordered entry list by date is the same
sequence. -/
def sortEntries (map : MsgMap) : MsgMap :=
  map.insertionSort (fun a b => a.2.date ≤ b.2.date)

/-- The `is_top_level` entries in the order `create_topics` visits them. -/
def rootEntriesOrder (map : MsgMap) : MsgMap :=
  (sortEntries map).filter (fun p => p.2.is_top_level)

/-- The ids of root messages in topic-creation order. -/
def rootReplayOrder (map : MsgMap) : List (Option String) :=
  (rootEntriesOrder map).map (·.1)

/-- `for child in sorted(msg.children, key=lambda x: x.date)` reply calls. -/
def childCalls (category_id : Nat) (tid : Option Nat) (children : List Message) :
    List TopicCall :=
  (children.insertionSort (fun a b => a.date ≤ b.date)).map
    (fun c => ⟨category_id, c.subject, c.body, some tid⟩)

/-- The loop body of `create_topics`; `k` counts the roots created so far and
`tids k` is the topic id the remote returns for the `k`-th root call. -/
def createTopicsGo (category_id : Nat) (tids : Nat → Option Nat) :
    Nat → MsgMap → List TopicCall
  | _, [] => []
  | k, (_, m) :: t =>
    if m.is_top_level then
      ⟨category_id, m.subject, m.body, none⟩ ::
        (childCalls category_id (tids k) m.children ++ createTopicsGo category_id tids (k + 1) t)
    else createTopicsGo category_id tids k t

/-- `Importer.create_topics`, as the sequence of `client.create_topic` calls
it issues. -/
def create_topics (category_id : Nat) (tids : Nat → Option Nat) (map : MsgMap) :
    List TopicCall :=
  createTopicsGo category_id tids 0 (sortEntries map)

/-! ### Spec-side definition used for refinement comparison -/

/-- Truncation at the earliest point where any of the markers starts. -/
def cutEarliest (seps : List (List Char)) : List Char → List Char
  | [] => []
  | c :: rest =>
    if seps.any (fun sp => !sp.isEmpty && beginsWith sp (c :: rest)) then []
    else c :: cutEarliest seps rest

/-- Modelled from the spec (§4.1 body extraction, the C4 claim): "truncate the
body at the first occurrence of a configured mailing-list footer marker and,
for the top-level case, at common human sign-off markers …, taking the
earliest cut point found; the truncated result is stripped".  Defined only to
compare the claim's words against the code model `Message.get_body`. -/
def claimBodySpec (isTop : Bool) (footer : String) (payload : String) : String :=
  ⟨pyStripChars
    (cutEarliest
      (if isTop then [footer.data, "cheers,".data, "-- ".data] else [footer.data])
      payload.data)⟩

/-- `m` is exactly an output of `Message.from_mbox_object` on some record of
the archive (as pass 2 and pass 3 produce them). -/
def FromParser (dec : String → String) (cfg : Config) (archive : List MboxRecord)
    (m : Message) : Prop :=
  ∃ rec ∈ archive, ∃ fv,
    Message.from_mbox_object dec rec fv cfg.list_footer_start cfg.skip_subject = .msg m

/-- `m` agrees with an output of `Message.from_mbox_object` on some record of
the archive in every field except `children` (entries of the flat map have
children appended to them by pass 3). -/
def CoreFromParser (dec : String → String) (cfg : Config) (archive : List MboxRecord)
    (m : Message) : Prop :=
  ∃ rec ∈ archive, ∃ fv m0,
    Message.from_mbox_object dec rec fv cfg.list_footer_start cfg.skip_subject = .msg m0
    ∧ m0.withChildren m.children = m

/-- Invariant of the flat message map across passes 2 and 3: every entry is a
parser output up to its `children`, and every attached child is a parser
output. -/
def MapInv (dec : String → String) (cfg : Config) (archive : List MboxRecord)
    (map : MsgMap) : Prop :=
  ∀ p ∈ map, CoreFromParser dec cfg archive p.2
    ∧ ∀ c ∈ p.2.children, FromParser dec cfg archive c

/-! ### Concrete fixtures used by counterexamples and witnesses -/

/-- A configuration with no sender filters and no subject filter. -/
def cfg0 : Config := ⟨"F", [], "", ""⟩

/-- A configuration whose sender-exclusion set contains `bob@y.com`. -/
def cfgIgnoreBob : Config := ⟨"FOOTER", ["bob@y.com"], "", ""⟩

/-- A record whose subject carries a generic `[List]` tag (not the Zato one). -/
def recListTag : MboxRecord :=
  { subject := some "[List] Hello", messageId := some "L", date := 0,
    hasInReplyTo := false, references := none, fromName := "n", fromEmail := "e@x",
    cteBase64 := false, payload := .str "some body" }

/-- A record whose subject carries the Zato list tag and doubled spaces. -/
def recW : MboxRecord :=
  { subject := some "[Zato-discuss]  A  B", messageId := some "W", date := 0,
    hasInReplyTo := false, references := none, fromName := "w", fromEmail := "w@x",
    cteBase64 := false, payload := .str "wbody" }

/-- The message `recW` parses to. -/
def msgW : Message :=
  .mk (some "W") (.str "w@x") "(Migrated) A B" (importBanner ++ "wbody") [] true 0

/-- A reply (`In-Reply-To` present) whose body carries a `-- ` sign-off. -/
def recReplySig : MboxRecord :=
  { subject := some "s", messageId := some "R", date := 0,
    hasInReplyTo := true, references := none, fromName := "n", fromEmail := "e@x",
    cteBase64 := false, payload := .str "reply text\n-- \nsignature here" }

/-- A top-level record whose footer-marker occurrence overlaps a `-- `
occurrence that starts earlier. -/
def recOverlap : MboxRecord :=
  { subject := some "s", messageId := some "O", date := 0,
    hasInReplyTo := false, references := none, fromName := "n", fromEmail := "e@x",
    cteBase64 := false, payload := .str "x-- foo" }

/-- A reply carrying the spec's footer-truncation example as payload. -/
def recC4W : MboxRecord :=
  { subject := some "s", messageId := some "T", date := 0,
    hasInReplyTo := true, references := none, fromName := "n", fromEmail := "e@x",
    cteBase64 := false, payload := .str "body text\n-- \nsignature" }

/-- A record with no `Subject` header at all. -/
def recNoSubj : MboxRecord :=
  { subject := none, messageId := some "N", date := 0,
    hasInReplyTo := false, references := none, fromName := "n", fromEmail := "e@x",
    cteBase64 := false, payload := .str "b" }

/-- Root with message id `"B"` but the earlier date. -/
def recB : MboxRecord :=
  { subject := some "B title", messageId := some "B", date := 1,
    hasInReplyTo := false, references := none, fromName := "P", fromEmail := "p@x",
    cteBase64 := false, payload := .str "bB" }

/-- Root with message id `"A"` but the later date. -/
def recA : MboxRecord :=
  { subject := some "A title", messageId := some "A", date := 2,
    hasInReplyTo := false, references := none, fromName := "Q", fromEmail := "q@x",
    cteBase64 := false, payload := .str "bA" }

/-- A record with a present-but-empty subject and no `Message-ID` header. -/
def rec0 : MboxRecord :=
  { subject := some "", messageId := none, date := 0,
    hasInReplyTo := false, references := none, fromName := "U", fromEmail := "u@v",
    cteBase64 := false, payload := .str "hello" }

/-- A top-level message from `alice@x.com` with id `M1`. -/
def recRoot : MboxRecord :=
  { subject := some "[Zato-discuss] Hello", messageId := some "M1", date := 1,
    hasInReplyTo := false, references := none, fromName := "Alice", fromEmail := "Alice@X.com",
    cteBase64 := false, payload := .str "root body" }

/-- A reply from `bob@y.com` whose references include `M1`. -/
def recReply : MboxRecord :=
  { subject := some "Re: Hello", messageId := some "M2", date := 2,
    hasInReplyTo := true, references := some " <M1> \nM1", fromName := "Bob",
    fromEmail := "Bob@Y.com", cteBase64 := false, payload := .str "reply body" }

/-- The parsed child `recReply` yields in pass 3 (note the tuple `from_`). -/
def c9child : Message :=
  .mk (some "M2") (.tup "Bob" "bob@y.com") "(Migrated) Re: Hello" "reply body" [] false 2

/-- A flat message map holding one root entry under the key `M1`. -/
def c9map : MsgMap :=
  [(some "M1",
    .mk (some "M1") (.str "alice@x.com") "(Migrated) Hello"
      (importBanner ++ "root body") [] true 1)]

/-- The state `read_mbox` builds from `[recRoot, recReply]` under
`cfgIgnoreBob`. -/
def c6state : ImportState :=
  ⟨[("alice@x.com", "Alice")],
   [(some "M1",
     .mk (some "M1") (.str "alice@x.com") "(Migrated) Hello"
       (importBanner ++ "root body") [c9child] true 1)]⟩

/-- One hundred missing emails that all share the local part `a`: more
collision-group members than `rand_suffix` has values. -/
def collideEmails : List String :=
  (List.range 100).map (fun k => "a@" ++ Nat.repr k)

/-- Every username the suffix loop can ever form for the base `"a"`:
`"a1"` … `"a99"`. -/
def suffNames : List String :=
  (List.range' 1 99).map (suffName "a")

/-! ## Theorems -/

theorem pySplitGo_headD (sep : List Char) (s : List Char) :
    ∀ (fuel : Nat) (cur : List Char), s.length ≤ fuel →
      (pySplitGo sep fuel cur s).headD [] = cur.reverse ++ cutBefore sep s := by
  induction s with
  | nil => intro fuel cur _; cases fuel <;> simp [pySplitGo, cutBefore]
  | cons c rest ih =>
    intro fuel cur h
    cases fuel with
    | zero => simp at h
    | succ f =>
      by_cases hc : (!sep.isEmpty && beginsWith sep (c :: rest)) = true
      · simp [pySplitGo, cutBefore, hc]
      · have hf : rest.length ≤ f := by simp at h; omega
        rw [show pySplitGo sep (f + 1) cur (c :: rest) = pySplitGo sep f (c :: cur) rest from by
              simp [pySplitGo, hc],
            show cutBefore sep (c :: rest) = c :: cutBefore sep rest from by
              simp [cutBefore, hc],
            ih f (c :: cur) hf]
        simp

/-- `s.split(sep)[0]` is the prefix of `s` before the first occurrence of
`sep`. -/
theorem pySplit_head (sep s : List Char) :
    (pySplit sep s).headD [] = cutBefore sep s := by
  simpa using pySplitGo_headD sep s s.length [] le_rfl

/-- C3 counterexample: for a record with subject `"[List] Hello"` the code
produces the topic title `"(Migrated) [List] Hello"` — only the literal
`"[Zato-discuss] "` tag is stripped — and not `"(Migrated) Hello"` as the
claim states. -/
theorem c3_counterexample :
    (Message.from_mbox_object (fun s => s) recListTag (.str "e@x") "F" "").subject?
        = some "(Migrated) [List] Hello"
      ∧ some "(Migrated) [List] Hello" ≠ some ("(Migrated) Hello" : String) :=
  ⟨rfl, by decide⟩

/-- C3 (amended): subject normalization strips every occurrence of the fixed
tag `"[Zato-discuss] "`, collapses whitespace runs to single spaces and adds
the `"(Migrated) "` marker: whenever the parser yields a message, its subject
is exactly that function of the raw subject. -/
theorem c3_subject_normalization (dec : String → String) (r : MboxRecord) (fv : FromVal)
    (footer skip s : String) (m : Message) (hs : r.subject = some s)
    (hm : Message.from_mbox_object dec r fv footer skip = .msg m) :
    m.subject = migratedMarker ++ pyCollapseWs (pyReplace s zatoTag "") := by
  rcases r with ⟨subj, mid, dt, irt, refs, fn, fe, cte, pl⟩
  have hs' : subj = some s := hs
  subst hs'
  simp only [Message.from_mbox_object] at hm
  split at hm
  · exact ParseOutcome.noConfusion hm
  · split at hm
    · exact ParseOutcome.noConfusion hm
    · split at hm
      · exact ParseOutcome.noConfusion hm
      · cases hm
        rfl

/-- C3 witness: a record with subject `"[Zato-discuss]  A  B"` parses to a
message whose subject the amended normalization formula gives, namely
`"(Migrated) A B"`. -/
theorem c3_witness :
    Message.from_mbox_object (fun s => s) recW (.str "w@x") "F" "" = .msg msgW
      ∧ msgW.subject = migratedMarker ++ pyCollapseWs (pyReplace "[Zato-discuss]  A  B" zatoTag "")
      ∧ msgW.subject = "(Migrated) A B" :=
  ⟨rfl, c3_subject_normalization (fun s => s) recW (.str "w@x") "F" "" _ msgW rfl rfl, rfl⟩

/-- C4 counterexample: (a) a reply (`In-Reply-To` present) is truncated at its
`-- ` sign-off although the claim applies sign-off markers to the top-level
case only; (b) for a top-level body `"x-- foo"` with footer marker `"- f"` the
code keeps `"x-"` (it splits on the footer first, then on `-- `), not the
`"x"` the claim's "earliest cut point" rule predicts. -/
theorem c4_counterexample :
    (Message.get_body (fun s => s) recReplySig "LISTFOOTER" = .ok "reply text"
        ∧ claimBodySpec false "LISTFOOTER" "reply text\n-- \nsignature here"
            = "reply text\n-- \nsignature here")
      ∧ (Message.get_body (fun s => s) recOverlap "- f" = .ok "x-"
        ∧ claimBodySpec true "- f" "x-- foo" = "x")
      ∧ ("reply text" : String) ≠ "reply text\n-- \nsignature here"
      ∧ ("x-" : String) ≠ "x" :=
  ⟨⟨rfl, rfl⟩, ⟨rfl, rfl⟩, by decide, by decide⟩

/-- C4 (amended): for every record with a plain (non-multipart, non-base64)
payload — reply or top-level alike — the extracted body is the payload
truncated before the first occurrence of the configured footer marker, then
before the first occurrence of `"cheers,"`, then before the first occurrence
of `"-- "` (in that order; for non-overlapping occurrences this is the
earliest cut point), then stripped of leading and trailing whitespace. -/
theorem c4_body_truncation (dec : String → String) (r : MboxRecord) (footer p : String)
    (hfooter : footer ≠ "") (hp : r.payload = .str p) (hb64 : r.cteBase64 = false) :
    Message.get_body dec r footer
      = .ok ⟨pyStripChars
          (cutBefore "-- ".data
            (cutBefore "cheers,".data (cutBefore footer.data p.data)))⟩ := by
  unfold Message.get_body topPayload
  rw [hp, hb64]
  simp only [b64maybe, if_neg, Bool.false_eq_true, not_false_eq_true, if_false]
  rw [pySplit_head, pySplit_head, pySplit_head]

/-- C4 witness: the spec's own example — a reply whose payload is
`"body text\n-- \nsignature"` truncates to `"body text"`, matching the
three-marker truncation formula. -/
theorem c4_witness :
    ("LF" : String) ≠ ""
      ∧ Message.get_body (fun s => s) recC4W "LF"
          = .ok ⟨pyStripChars
              (cutBefore "-- ".data
                (cutBefore "cheers,".data (cutBefore "LF".data "body text\n-- \nsignature".data)))⟩
      ∧ Message.get_body (fun s => s) recC4W "LF" = .ok "body text" :=
  ⟨by decide, c4_body_truncation (fun s => s) recC4W "LF" "body text\n-- \nsignature"
    (by decide) rfl rfl, rfl⟩

/-- C5 counterexample: a record with no `Subject` header combined with a
non-empty subject-exclusion filter makes the parser raise a `TypeError`
(`skip_subject in None`), not return `absent` as the claim states. -/
theorem c5_counterexample :
    Message.from_mbox_object (fun s => s) recNoSubj (.str "e@x") "F" "spam"
        = ParseOutcome.typeError
      ∧ ParseOutcome.typeError ≠ ParseOutcome.absent :=
  ⟨rfl, fun h => ParseOutcome.noConfusion h⟩

/-- C5 (amended): the parser returns `absent` exactly when the subject header
is missing and the exclusion filter is empty, or the subject is present and
contains the non-empty exclusion filter, or the subject passes the filter and
the extracted body (after truncation and stripping) is empty; it raises an
uncaught `TypeError` exactly when the subject header is missing and the filter
is non-empty, or when the subject passes the filter and body extraction itself
raises (a base64 transfer encoding declared on a multipart payload); in every
remaining case it returns a `Message`. -/
theorem c5_rejection_characterization (dec : String → String) (r : MboxRecord)
    (fv : FromVal) (footer skip : String) :
    (Message.from_mbox_object dec r fv footer skip = .absent ↔
        (r.subject = none ∧ skip = "")
          ∨ (∃ s, r.subject = some s ∧ skip ≠ "" ∧ pyIn skip s = true)
          ∨ (∃ s, r.subject = some s ∧ ¬(skip ≠ "" ∧ pyIn skip s = true)
              ∧ Message.get_body dec r footer = .ok ""))
      ∧ (Message.from_mbox_object dec r fv footer skip = .typeError ↔
          (r.subject = none ∧ skip ≠ "")
            ∨ (∃ s, r.subject = some s ∧ ¬(skip ≠ "" ∧ pyIn skip s = true)
                ∧ ∃ e, Message.get_body dec r footer = .error e))
      ∧ ((∃ m, Message.from_mbox_object dec r fv footer skip = .msg m) ↔
          ∃ s, r.subject = some s ∧ ¬(skip ≠ "" ∧ pyIn skip s = true)
            ∧ ∃ b, Message.get_body dec r footer = .ok b ∧ b ≠ "") := by
  rcases r with ⟨subj, mid, dt, irt, refs, fn, fe, cte, pl⟩
  cases subj with
  | none =>
    by_cases hskip : skip = "" <;>
      simp [Message.from_mbox_object, hskip]
  | some s =>
    by_cases h1 : ¬skip = "" ∧ pyIn skip s = true
    · simp [Message.from_mbox_object, h1]
    · have h3 : ¬skip = "" → pyIn skip s = false := by
        intro hne
        cases hpy : pyIn skip s
        · rfl
        · exact absurd ⟨hne, hpy⟩ h1
      cases hgb : Message.get_body dec
          ⟨some s, mid, dt, irt, refs, fn, fe, cte, pl⟩ footer with
      | error e =>
        simp [Message.from_mbox_object, h1, hgb] <;> exact h3
      | ok b =>
        by_cases h2 : b = "" <;>
          simp [Message.from_mbox_object, h1, h2, hgb] <;>
          exact h3

/-- C1 counterexample: an archive with two roots whose id order (`"A" < "B"`)
is the reverse of their date order makes the driver process `"B"` before
`"A"`: the topic-creation order follows dates, not ascending id strings. -/
theorem c1_counterexample :
    (read_mbox (fun s => s) cfg0 [recB, recA]).map
        (fun st => rootReplayOrder st.mbox_messages)
      = .ok [some "B", some "A"]
      ∧ ¬ List.Pairwise (fun a b : Option String => strLe (a.getD "") (b.getD "") = true)
          [some "B", some "A"] :=
  ⟨rfl, by decide⟩

theorem createTopicsGo_roots (category_id : Nat) (tids : Nat → Option Nat) :
    ∀ (l : MsgMap) (k : Nat),
      ((createTopicsGo category_id tids k l).filter
          (fun c => c.topicIdArg = none)).map (fun c => c.title)
        = (l.filter (fun p => p.2.is_top_level)).map (fun p => p.2.subject) := by
  intro l
  induction l with
  | nil => intro k; rfl
  | cons p t ih =>
    intro k
    obtain ⟨key, m⟩ := p
    by_cases hm : m.is_top_level = true
    · simp [createTopicsGo, hm, List.filter_append, childCalls, List.filter_map, ih,
        Function.comp_def]
    · simp [createTopicsGo, hm, ih]

/-- C1 (amended): the driver's topic-creation step visits root messages in
ascending order of their dates (`Message.__lt__` compares `date`, and
`sorted(self.mbox_messages, key=self.mbox_messages.get)` sorts by it), not of
their id strings; the titles of the issued root `create_topic` calls follow
exactly that date-sorted root order. -/
theorem c1_roots_by_date (map : MsgMap) (category_id : Nat) (tids : Nat → Option Nat) :
    List.Pairwise (fun a b : Option String × Message => a.2.date ≤ b.2.date)
        (rootEntriesOrder map)
      ∧ ((create_topics category_id tids map).filter
            (fun c => c.topicIdArg = none)).map (fun c => c.title)
          = (rootEntriesOrder map).map (fun p => p.2.subject) := by
  constructor
  · haveI ht : IsTotal (Option String × Message)
        (fun a b => a.2.date ≤ b.2.date) := ⟨fun a b => Nat.le_total _ _⟩
    haveI htr : IsTrans (Option String × Message)
        (fun a b => a.2.date ≤ b.2.date) := ⟨fun _ _ _ => Nat.le_trans⟩
    simp only [rootEntriesOrder, sortEntries]
    exact List.Pairwise.filter _
      (List.sorted_insertionSort
        (fun (a b : Option String × Message) => a.2.date ≤ b.2.date) map)
  · exact createTopicsGo_roots category_id tids (sortEntries map) 0

theorem drawSuffix_some (stream : Nat → Nat) :
    ∀ (fuel i : Nat) (base : String) (used : List String) (sfx i' : Nat),
      drawSuffix stream fuel i base used = some (sfx, i') →
      (∃ k, sfx = stream k) ∧ suffName base sfx ∉ used := by
  intro fuel
  induction fuel with
  | zero => intro i base used sfx i' h; exact Option.noConfusion h
  | succ f ih =>
    intro i base used sfx i' h
    unfold drawSuffix at h
    by_cases hc : used.contains (suffName base (stream i)) = true
    · rw [if_pos hc] at h
      exact ih (i + 1) base used sfx i' h
    · rw [if_neg hc] at h
      cases h
      exact ⟨⟨i, rfl⟩, by simpa using hc⟩

theorem allocGo_exhausted (stream : Nat → Nat) (pw : Nat → String) (dup : String → Bool)
    (dir : String → String)
    (hs : ∀ k, 1 ≤ stream k ∧ stream k ≤ 99)
    (hdup : dup "a" = true) :
    ∀ (items : List String), (∀ e ∈ items, _get_username e = "a") →
      ∀ (used : List String) (fuel i j : Nat), used.Nodup →
        (∀ u ∈ used, u ∈ suffNames) → 99 < used.length + items.length →
        allocGo stream pw dup dir fuel i j used items = none := by
  intro items
  induction items with
  | nil =>
    intro _ used fuel i j hnd hsub hcard
    exfalso
    have h1 : used.toFinset.card = used.length := List.toFinset_card_of_nodup hnd
    have h2 : used.toFinset ⊆ suffNames.toFinset := fun x hx =>
      List.mem_toFinset.mpr (hsub x (List.mem_toFinset.mp hx))
    have h3 : suffNames.toFinset.card ≤ suffNames.length := List.toFinset_card_le _
    have h4 : suffNames.length = 99 := by simp [suffNames]
    have h5 := Finset.card_le_card h2
    simp at hcard
    omega
  | cons item rest ih =>
    intro hitems used fuel i j hnd hsub hcard
    have hbase : _get_username item = "a" := hitems item (List.mem_cons_self _ _)
    unfold allocGo
    simp only [hbase, hdup, if_true]
    cases hd : drawSuffix stream fuel i "a" used with
    | none => rfl
    | some pr =>
      obtain ⟨sfx, i'⟩ := pr
      obtain ⟨⟨k, hk⟩, hnotin⟩ := drawSuffix_some stream fuel i "a" used sfx i' hd
      have hrange := hs k
      have hmem : suffName "a" sfx ∈ suffNames := by
        subst hk
        exact List.mem_map.mpr ⟨stream k,
          List.mem_range'_1.mpr ⟨hrange.1, by omega⟩, rfl⟩
      have hrec := ih (fun e he => hitems e (List.mem_cons_of_mem _ he))
        (suffName "a" sfx :: used) fuel i' (j + 1)
        (List.nodup_cons.mpr ⟨hnotin, hnd⟩)
        (fun u hu => by
          rcases List.mem_cons.mp hu with h | h
          · subst h; exact hmem
          · exact hsub u h)
        (by simp only [List.length_cons] at hcard ⊢; omega)
      simp only [hrec]

set_option maxRecDepth 8000 in
/-- C2 (code bug): with one hundred missing emails that all share the local
part `"a"` — one more collision-group member than `rand_suffix = range(1, 100)`
has values — the suffix redraw loop can never complete: whatever values the
`random.choice` stream yields (an arbitrary sequence over 1..99) and whatever
fuel bound models the loop, allocation reaches no result.  The Python loop
spins forever redrawing instead of raising a fatal allocation error. -/
theorem c2_suffix_exhaustion_diverges (fuel : Nat) (stream : Nat → Nat)
    (pw : Nat → String) (dir : String → String) :
    add_missing_users fuel (fun k => 1 + stream k % 99) pw collideEmails dir = none := by
  unfold add_missing_users
  apply allocGo_exhausted
  · intro k
    refine ⟨by omega, ?_⟩
    have := Nat.mod_lt (stream k) (show 0 < 99 by omega)
    omega
  · decide
  · intro e he
    have hmem : e ∈ collideEmails :=
      (List.perm_insertionSort _ _).mem_iff.mp he
    have hall : ∀ x ∈ collideEmails, _get_username x = "a" := by decide
    exact hall e hmem
  · exact List.nodup_nil
  · intro u hu; cases hu
  · have hlen : (collideEmails.insertionSort (· ≤ ·)).length = collideEmails.length :=
      (List.perm_insertionSort _ _).length_eq
    rw [List.length_nil, hlen]
    decide

/-- C8 (confirmed): the username allocator is deterministic in the
missing-user set: for the same author directory, `random.choice` stream and
`uuid4` stream, any two iteration orders of the same missing-email set (any
permutation) produce the same ordered sequence of `create_user` calls, because
allocation iterates `sorted(self.missing_users)` and the duplicate-base test
is a count over the whole set. -/
theorem c8_allocation_deterministic (fuel : Nat) (stream : Nat → Nat)
    (pw : Nat → String) (dir : String → String) (l1 l2 : List String)
    (hp : l1.Perm l2) :
    add_missing_users fuel stream pw l1 dir = add_missing_users fuel stream pw l2 dir := by
  unfold add_missing_users
  have hsort : l1.insertionSort (· ≤ ·) = l2.insertionSort (· ≤ ·) := by
    refine List.eq_of_perm_of_sorted
      (((List.perm_insertionSort _ l1).trans hp).trans
        (List.perm_insertionSort _ l2).symm)
      (List.sorted_insertionSort _ l1) (List.sorted_insertionSort _ l2)
  have hdup : (fun b => decide (1 < (l1.map _get_username).count b))
      = (fun b => decide (1 < (l2.map _get_username).count b)) :=
    funext fun b => by rw [(hp.map _get_username).count_eq]
  rw [hsort]
  simp only [hdup]

/-- C8 witness: two iteration orders of the missing set
`{"b@x.com", "a@x.com"}` yield identical allocations. -/
theorem c8_witness :
    (["b@x.com", "a@x.com"] : List String).Perm ["a@x.com", "b@x.com"]
      ∧ add_missing_users 3 (fun _ => 7) (fun _ => "pw") ["b@x.com", "a@x.com"] (fun _ => "N")
          = add_missing_users 3 (fun _ => 7) (fun _ => "pw") ["a@x.com", "b@x.com"] (fun _ => "N") :=
  ⟨by decide, c8_allocation_deterministic 3 (fun _ => 7) (fun _ => "pw") (fun _ => "N")
    ["b@x.com", "a@x.com"] ["a@x.com", "b@x.com"] (by decide)⟩

/-- C10 (confirmed): the usernames allocated for missing users never consult
the remote account listing beyond its emails: two runs that fetch remote
listings with the same emails (any ids and usernames — `self.discourse_users`
is collected but never read by allocation, and `used` starts empty) produce
identical `create_user` call sequences. -/
theorem c10_remote_usernames_never_consulted (fuel : Nat) (stream : Nat → Nat)
    (pw : Nat → String) (mbox_users : List (String × String))
    (r1 r2 : List RemoteUser)
    (h : ∀ e, e ∈ r1.map RemoteUser.email ↔ e ∈ r2.map RemoteUser.email) :
    allocate_after_reconcile fuel stream pw r1 mbox_users
      = allocate_after_reconcile fuel stream pw r2 mbox_users := by
  unfold allocate_after_reconcile set_missing_users
  have hfilter : (mbox_users.map Prod.fst).filter
        (fun e => !(r1.map RemoteUser.email).contains e)
      = (mbox_users.map Prod.fst).filter
        (fun e => !(r2.map RemoteUser.email).contains e) := by
    refine List.filter_congr fun x _ => ?_
    have h1 : (r1.map RemoteUser.email).contains x = (r2.map RemoteUser.email).contains x := by
      have e1 : (r1.map RemoteUser.email).contains x
          = decide (x ∈ r1.map RemoteUser.email) := List.elem_eq_mem _ _
      have e2 : (r2.map RemoteUser.email).contains x
          = decide (x ∈ r2.map RemoteUser.email) := List.elem_eq_mem _ _
      rw [e1, e2, decide_eq_decide.mpr (h x)]
    rw [h1]
  simp only [hfilter]

/-- C10 witness: two remote listings that agree on emails but have different
ids and usernames give the same allocation. -/
theorem c10_witness :
    allocate_after_reconcile 3 (fun _ => 7) (fun _ => "pw")
        [⟨1, "admin", "z@q.com"⟩] [("z@q.com", "Z"), ("w@q.com", "W")]
      = allocate_after_reconcile 3 (fun _ => 7) (fun _ => "pw")
        [⟨7, "other", "z@q.com"⟩] [("z@q.com", "Z"), ("w@q.com", "W")] :=
  c10_remote_usernames_never_consulted 3 (fun _ => 7) (fun _ => "pw")
    [("z@q.com", "Z"), ("w@q.com", "W")] [⟨1, "admin", "z@q.com"⟩]
    [⟨7, "other", "z@q.com"⟩] (fun _ => Iff.rfl)

@[simp]
theorem Message.children_withChildren (m : Message) (l : List Message) :
    (m.withChildren l).children = l := by cases m; rfl

@[simp]
theorem Message.body_withChildren (m : Message) (l : List Message) :
    (m.withChildren l).body = m.body := by cases m; rfl

@[simp]
theorem Message.id_withChildren (m : Message) (l : List Message) :
    (m.withChildren l).id = m.id := by cases m; rfl

@[simp]
theorem Message.subject_withChildren (m : Message) (l : List Message) :
    (m.withChildren l).subject = m.subject := by cases m; rfl

@[simp]
theorem Message.withChildren_children (m : Message) :
    m.withChildren m.children = m := by cases m; rfl

@[simp]
theorem Message.withChildren_withChildren (m : Message) (l l' : List Message) :
    (m.withChildren l).withChildren l' = m.withChildren l' := by cases m; rfl

/-- Prepending the import banner never yields the empty string. -/
theorem banner_append_ne (b : String) : importBanner ++ b ≠ "" := by
  intro hc
  have hd := congrArg String.data hc
  rw [String.data_append] at hd
  have h2 := List.append_eq_nil.mp hd
  exact absurd h2.1 (by decide)

/-- Inversion of a successful parse: the record had a subject that passed the
exclusion filter, the message's body is non-empty, and its `children` list is
empty. -/
theorem from_mbox_object_msg_inv (dec : String → String) (r : MboxRecord) (fv : FromVal)
    (footer skip : String) (m : Message)
    (hm : Message.from_mbox_object dec r fv footer skip = .msg m) :
    m.body ≠ "" ∧ m.children = []
      ∧ ∃ s, r.subject = some s ∧ (skip ≠ "" → pyIn skip s = false) := by
  rcases r with ⟨subj, mid, dt, irt, refs, fn, fe, cte, pl⟩
  cases subj with
  | none =>
    simp only [Message.from_mbox_object] at hm
    split at hm <;> exact ParseOutcome.noConfusion hm
  | some s =>
    simp only [Message.from_mbox_object] at hm
    split at hm
    · exact ParseOutcome.noConfusion hm
    · rename_i hfilter
      split at hm
      · exact ParseOutcome.noConfusion hm
      · split at hm
        · exact ParseOutcome.noConfusion hm
        · rename_i hbody
          cases hm
          refine ⟨?_, rfl, s, rfl, ?_⟩
          · simp only [Message.body]
            split
            · exact banner_append_ne _
            · exact hbody
          · intro hne
            cases hpy : pyIn skip s
            · rfl
            · exact absurd (by simp [hne, hpy]) hfilter

theorem dictFind_appendChild (m : MsgMap) (k k' : Option String) (c : Message) :
    dictFind (appendChild m k c) k' =
      if k' = k then
        (dictFind m k).map (fun msg => msg.withChildren (msg.children ++ [c]))
      else dictFind m k' := by
  induction m with
  | nil => by_cases h : k' = k <;> simp [appendChild, dictFind, h]
  | cons p t ih =>
    obtain ⟨k0, m0⟩ := p
    by_cases h0 : k0 = k <;> by_cases h1 : k0 = k' <;> by_cases h2 : k' = k <;>
      simp_all [appendChild, dictFind]

theorem dictContains_appendChild (m : MsgMap) (k k' : Option String) (c : Message) :
    dictContains (appendChild m k c) k' = dictContains m k' := by
  induction m with
  | nil => simp [appendChild, dictContains]
  | cons p t ih =>
    obtain ⟨k0, m0⟩ := p
    by_cases h0 : k0 = k <;> simp [appendChild, dictContains, h0, ih]

theorem dictContains_iff {α β : Type} [DecidableEq α] (l : List (α × β)) (k : α) :
    dictContains l k = true ↔ ∃ v, dictFind l k = some v := by
  induction l with
  | nil => simp [dictContains, dictFind]
  | cons p t ih =>
    obtain ⟨k0, v0⟩ := p
    by_cases h0 : k0 = k <;> simp [dictContains, dictFind, h0, ih]

/-- Appending a child preserves every present entry up to extending its
`children` list. -/
theorem dictFind_appendChild_mono (m : MsgMap) (k k' : Option String) (c : Message)
    (m0 : Message) (hf : dictFind m k' = some m0) :
    ∃ m1, dictFind (appendChild m k c) k' = some m1
      ∧ ∀ y ∈ m0.children, y ∈ m1.children := by
  rw [dictFind_appendChild]
  by_cases h : k' = k
  · subst h
    rw [if_pos rfl, hf]
    exact ⟨m0.withChildren (m0.children ++ [c]), rfl, fun y hy => by
      simp only [Message.children_withChildren]
      exact List.mem_append_left _ hy⟩
  · rw [if_neg h]
    exact ⟨m0, hf, fun y hy => hy⟩

/-- The per-reference fold of pass 3: it never fails when the record parses to
a child, every present entry persists (children only grow), and every
reference that matches a present key ends up with the child attached. -/
theorem pass3_fold_attaches (dec : String → String) (cfg : Config) (r : MboxRecord)
    (fv : FromVal) (c : Message)
    (hparse : Message.from_mbox_object dec r fv cfg.list_footer_start cfg.skip_subject
      = .msg c) :
    ∀ (refs : List String) (map : MsgMap),
      ∃ map', foldE (pass3_ref dec cfg r fv) map refs = .ok map'
        ∧ (∀ k m0, dictFind map k = some m0 →
            ∃ m1, dictFind map' k = some m1 ∧ ∀ y ∈ m0.children, y ∈ m1.children)
        ∧ ∀ ref ∈ refs, dictContains map (some ref) = true →
            ∃ m', dictFind map' (some ref) = some m' ∧ c ∈ m'.children := by
  intro refs
  induction refs with
  | nil =>
    intro map
    exact ⟨map, rfl, fun k m0 hf => ⟨m0, hf, fun y hy => hy⟩, by simp⟩
  | cons ref0 rest ih =>
    intro map
    by_cases h0 : dictContains map (some ref0) = true
    · obtain ⟨m0, hm0⟩ := (dictContains_iff map (some ref0)).mp h0
      obtain ⟨map', hfold, hmono, hatt⟩ := ih (appendChild map (some ref0) c)
      refine ⟨map', ?_, ?_, ?_⟩
      · simp only [foldE, pass3_ref, h0, if_true, hparse, hfold]
      · intro k mm hf
        obtain ⟨m1, hf1, hsub1⟩ := dictFind_appendChild_mono map (some ref0) k c mm hf
        obtain ⟨m2, hf2, hsub2⟩ := hmono k m1 hf1
        exact ⟨m2, hf2, fun y hy => hsub2 y (hsub1 y hy)⟩
      · intro ref href hcont
        rcases List.mem_cons.mp href with h | h
        · subst h
          have hf1 : dictFind (appendChild map (some ref) c) (some ref)
              = some (m0.withChildren (m0.children ++ [c])) := by
            rw [dictFind_appendChild, if_pos rfl, hm0]
            rfl
          obtain ⟨m2, hf2, hsub2⟩ := hmono (some ref) _ hf1
          refine ⟨m2, hf2, hsub2 c ?_⟩
          simp
        · have hcont1 : dictContains (appendChild map (some ref0) c) (some ref) = true := by
            rw [dictContains_appendChild]; exact hcont
          exact hatt ref h hcont1
    · obtain ⟨map', hfold, hmono, hatt⟩ := ih map
      refine ⟨map', ?_, hmono, ?_⟩
      · simp only [foldE, pass3_ref, h0, if_false, Bool.false_eq_true, hfold]
      · intro ref href hcont
        rcases List.mem_cons.mp href with h | h
        · subst h; exact absurd hcont h0
        · exact hatt ref h hcont

/-- C9 (confirmed): the attachment pass does not re-apply the pass-1 sender
filters.  Changing the sender-exclusion set and the required-substring filter
to anything at all leaves the pass-3 processing of a record unchanged, and a
record whose references match a known message id is parsed and attached as a
child — only the subject/body rejection rules of the parser (hypothesis
`hparse`) are involved, never the sender. -/
theorem c9_replies_skip_sender_filters (dec : String → String) (cfg : Config)
    (ig : List String) (rq : String) (map : MsgMap) (r : MboxRecord)
    (refsStr : String) (c : Message)
    (href : r.references = some refsStr) (hne : refsStr ≠ "")
    (hparse : Message.from_mbox_object dec r
        (.tup (_get_name_from r).1 (_get_name_from r).2)
        cfg.list_footer_start cfg.skip_subject = .msg c) :
    pass3_step dec { cfg with emails_ignore := ig, emails_require := rq } map r
        = pass3_step dec cfg map r
      ∧ ∃ map', pass3_step dec cfg map r = .ok map'
          ∧ ∀ ref ∈ parseRefs refsStr, dictContains map (some ref) = true →
              ∃ m', dictFind map' (some ref) = some m' ∧ c ∈ m'.children := by
  constructor
  · rfl
  · obtain ⟨map', hfold, hmono, hatt⟩ :=
      pass3_fold_attaches dec cfg r (.tup (_get_name_from r).1 (_get_name_from r).2) c
        hparse (parseRefs refsStr) map
    refine ⟨map', ?_, fun ref h1 h2 => hatt ref h1 h2⟩
    simp only [pass3_step, href, hne, if_false]
    exact hfold

/-- C9 witness: with `bob@y.com` on the exclusion list, pass 3 still attaches
Bob's reply under `M1`, and replacing the filters entirely does not change the
pass-3 result. -/
theorem c9_witness :
    pass3_step (fun s => s)
        { cfgIgnoreBob with emails_ignore := [], emails_require := "zzz" } c9map recReply
        = pass3_step (fun s => s) cfgIgnoreBob c9map recReply
      ∧ ∃ map', pass3_step (fun s => s) cfgIgnoreBob c9map recReply = .ok map'
          ∧ ∀ ref ∈ parseRefs " <M1> 
M1", dictContains c9map (some ref) = true →
              ∃ m', dictFind map' (some ref) = some m' ∧ c9child ∈ m'.children :=
  c9_replies_skip_sender_filters (fun s => s) cfgIgnoreBob [] "zzz" c9map recReply
    " <M1> 
M1" c9child rfl (by decide) rfl

/-- C7 (code bug): in the attachment pass `from_ = self._get_name_from(msg)`
is not unpacked, so a child message's `from_` is the whole `(name, email)`
tuple, not the lower-cased email string — while the root-pass entry for the
same run does carry the plain lower-cased email. -/
theorem c7_child_author_is_tuple :
    (read_mbox (fun s => s) cfgIgnoreBob [recRoot, recReply]).map
        (fun st => st.mbox_messages.map
          (fun p : Option String × Message => (p.1, p.2.from_, p.2.children.map Message.from_)))
      = .ok [(some "M1", FromVal.str "alice@x.com", [FromVal.tup "Bob" "bob@y.com"])] := rfl

theorem foldE_inv {σ α : Type} (f : σ → α → Except PyErr σ) (P : σ → Prop)
    (Q : α → Prop) (hstep : ∀ s a s', Q a → P s → f s a = .ok s' → P s') :
    ∀ (l : List α), (∀ a ∈ l, Q a) → ∀ s s', P s → foldE f s l = .ok s' → P s' := by
  intro l
  induction l with
  | nil =>
    intro _ s s' hs h
    cases h
    exact hs
  | cons a t ih =>
    intro hq s s' hs h
    simp only [foldE] at h
    cases hstep2 : f s a with
    | error e => rw [hstep2] at h; exact Except.noConfusion h
    | ok s1 =>
      rw [hstep2] at h
      exact ih (fun x hx => hq x (List.mem_cons_of_mem _ hx)) s1 s'
        (hstep s a s1 (hq a (List.mem_cons_self _ _)) hs hstep2) h

theorem mem_dictUpdate {α β : Type} [DecidableEq α] (l : List (α × β)) (k : α) (v : β) :
    ∀ p ∈ dictUpdate l k v, p ∈ l ∨ p = (k, v) := by
  induction l with
  | nil => intro p hp; simp [dictUpdate] at hp; simp [hp]
  | cons q t ih =>
    obtain ⟨k0, v0⟩ := q
    intro p hp
    by_cases h0 : k0 = k
    · simp only [dictUpdate, if_pos h0] at hp
      rcases List.mem_cons.mp hp with h | h
      · right; exact h
      · left; exact List.mem_cons_of_mem _ h
    · simp only [dictUpdate, if_neg h0] at hp
      rcases List.mem_cons.mp hp with h | h
      · left; exact h ▸ List.mem_cons_self _ _
      · rcases ih p h with h1 | h1
        · left; exact List.mem_cons_of_mem _ h1
        · right; exact h1

theorem mem_appendChild (m : MsgMap) (k : Option String) (c : Message) :
    ∀ p ∈ appendChild m k c,
      p ∈ m ∨ ∃ m0, (p.1, m0) ∈ m ∧ p.2 = m0.withChildren (m0.children ++ [c]) := by
  induction m with
  | nil => intro p hp; exact absurd hp (List.not_mem_nil p)
  | cons q t ih =>
    obtain ⟨k0, m0⟩ := q
    intro p hp
    by_cases h0 : k0 = k
    · simp only [appendChild, if_pos h0] at hp
      rcases List.mem_cons.mp hp with h | h
      · right
        exact ⟨m0, by simp [h], by simp [h]⟩
      · left; exact List.mem_cons_of_mem _ h
    · simp only [appendChild, if_neg h0] at hp
      rcases List.mem_cons.mp hp with h | h
      · left; exact h ▸ List.mem_cons_self _ _
      · rcases ih p h with h1 | ⟨mm, hmm, he⟩
        · left; exact List.mem_cons_of_mem _ h1
        · right; exact ⟨mm, List.mem_cons_of_mem _ hmm, he⟩

theorem pass2_step_inv (dec : String → String) (cfg : Config)
    (users : List (String × String)) (archive : List MboxRecord)
    (map map1 : MsgMap) (r : MboxRecord) (hr : r ∈ archive)
    (hinv : MapInv dec cfg archive map)
    (h : pass2_step dec cfg users map r = .ok map1) :
    MapInv dec cfg archive map1 := by
  unfold pass2_step at h
  dsimp only at h
  split at h
  · cases h; exact hinv
  · split at h
    · rename_i m hparse
      cases h
      intro p hp
      rcases mem_dictUpdate map m.id m p hp with hpm | hpe
      · exact hinv p hpm
      · obtain ⟨hb, hch, _⟩ := from_mbox_object_msg_inv dec r _ _ _ m hparse
        subst hpe
        refine ⟨⟨r, hr, _, m, hparse, by simp⟩, ?_⟩
        intro c hc
        rw [hch] at hc
        exact absurd hc (List.not_mem_nil c)
    · cases h
      exact hinv
    · exact Except.noConfusion h

theorem pass3_ref_fold_inv (dec : String → String) (cfg : Config)
    (archive : List MboxRecord) (r : MboxRecord) (fv : FromVal) (hr : r ∈ archive) :
    ∀ (refs : List String) (map map' : MsgMap), MapInv dec cfg archive map →
      foldE (pass3_ref dec cfg r fv) map refs = .ok map' →
      MapInv dec cfg archive map' := by
  intro refs map map' hinv hfold
  refine foldE_inv (pass3_ref dec cfg r fv) (MapInv dec cfg archive) (fun _ => True)
    ?_ refs (fun _ _ => trivial) map map' hinv hfold
  intro s ref s1 _ hs hstep
  unfold pass3_ref at hstep
  split at hstep
  · split at hstep
    · rename_i c hparse
      cases hstep
      intro p hp
      rcases mem_appendChild s (some ref) c p hp with hpm | ⟨m0, hm0, hpe⟩
      · exact hs p hpm
      · obtain ⟨hcore0, hch0⟩ := hs (p.1, m0) hm0
        constructor
        · obtain ⟨rec, hrec, fv', mm, hpp, hmeq⟩ := hcore0
          refine ⟨rec, hrec, fv', mm, hpp, ?_⟩
          have h2 := congrArg (fun z => Message.withChildren z (m0.children ++ [c])) hmeq
          simp only [Message.withChildren_withChildren] at h2
          rw [hpe]
          simp only [Message.children_withChildren]
          exact h2
        · intro x hx
          rw [hpe] at hx
          simp only [Message.children_withChildren] at hx
          rcases List.mem_append.mp hx with h | h
          · exact hch0 x h
          · have hxc : x = c := List.mem_singleton.mp h
            subst hxc
            exact ⟨r, hr, fv, hparse⟩
    · cases hstep; exact hs
    · exact Except.noConfusion hstep
  · cases hstep; exact hs

theorem pass3_step_inv (dec : String → String) (cfg : Config)
    (archive : List MboxRecord) (map map1 : MsgMap) (r : MboxRecord) (hr : r ∈ archive)
    (hinv : MapInv dec cfg archive map)
    (h : pass3_step dec cfg map r = .ok map1) :
    MapInv dec cfg archive map1 := by
  unfold pass3_step at h
  split at h
  · cases h; exact hinv
  · split at h
    · cases h; exact hinv
    · exact pass3_ref_fold_inv dec cfg archive r _ hr _ map map1 hinv h

/-- C6 counterexample: a record with a present-but-empty subject and no
`Message-ID` header still produces a flat-map entry — keyed `None`, with
`id = None` (not a non-empty string) and with original subject `""`
(the code only rejects a missing subject, not an empty one). -/
theorem c6_counterexample :
    (read_mbox (fun s => s) cfg0 [rec0]).map
        (fun st => st.mbox_messages.map
          (fun p : Option String × Message => (p.1, p.2.id, p.2.subject)))
      = .ok [(none, none, "(Migrated) ")]
      ∧ rec0.subject = some "" :=
  ⟨rfl, rfl⟩

/-- C6 (amended): every `Message` in the flat map built by `read_mbox` is, up
to the children pass 3 appended to it, the parser's output for a record of the
archive whose subject header is present and does not contain the non-empty
exclusion substring; its `body` is non-empty, and every attached child is an
exact parser output with a non-empty `body` as well.  The claim's
non-empty-`id` part does not hold: `id` is copied unchecked from the
`Message-ID` header and can be `None` or empty, and a present-but-empty
subject is accepted (see the counterexample). -/
theorem c6_bodies_nonempty_and_filtered (dec : String → String) (cfg : Config)
    (archive : List MboxRecord) (st : ImportState)
    (h : read_mbox dec cfg archive = .ok st) :
    ∀ p ∈ st.mbox_messages,
      p.2.body ≠ ""
      ∧ (∃ rec ∈ archive, ∃ s, rec.subject = some s
          ∧ (cfg.skip_subject ≠ "" → pyIn cfg.skip_subject s = false)
          ∧ ∃ fv m0,
              Message.from_mbox_object dec rec fv cfg.list_footer_start cfg.skip_subject
                = .msg m0
              ∧ m0.withChildren p.2.children = p.2)
      ∧ ∀ c ∈ p.2.children,
          c.body ≠ "" ∧ FromParser dec cfg archive c := by
  unfold read_mbox at h
  split at h
  · exact Except.noConfusion h
  · dsimp only at h
    cases h2 : foldE (pass2_step dec cfg (archive.foldl (pass1_step cfg) [])) [] archive with
    | error e => rw [h2] at h; exact Except.noConfusion h
    | ok map2 =>
      rw [h2] at h
      dsimp only at h
      cases h3 : foldE (pass3_step dec cfg) map2 archive with
      | error e => rw [h3] at h; exact Except.noConfusion h
      | ok map3 =>
        rw [h3] at h
        cases h
        have hinv0 : MapInv dec cfg archive [] := fun p hp => absurd hp (List.not_mem_nil p)
        have hinv2 : MapInv dec cfg archive map2 :=
          foldE_inv (pass2_step dec cfg (archive.foldl (pass1_step cfg) []))
            (MapInv dec cfg archive) (fun rec => rec ∈ archive)
            (fun s a s' ha hs hstep =>
              pass2_step_inv dec cfg (archive.foldl (pass1_step cfg) []) archive s s' a
                ha hs hstep)
            archive (fun a ha => ha) [] map2 hinv0 h2
        have hinv3 : MapInv dec cfg archive map3 :=
          foldE_inv (pass3_step dec cfg) (MapInv dec cfg archive)
            (fun rec => rec ∈ archive)
            (fun s a s' ha hs hstep => pass3_step_inv dec cfg archive s s' a ha hs hstep)
            archive (fun a ha => ha) map2 map3 hinv2 h3
        intro p hp
        obtain ⟨hcore, hch⟩ := hinv3 p hp
        obtain ⟨rec, hrec, fv, mm, hpp, hmeq⟩ := hcore
        obtain ⟨hb, _, s, hsub, hfil⟩ := from_mbox_object_msg_inv dec rec fv _ _ mm hpp
        refine ⟨?_, ⟨rec, hrec, s, hsub, hfil, fv, mm, hpp, hmeq⟩, ?_⟩
        · rw [← hmeq]
          simpa using hb
        · intro c hc
          obtain ⟨rec', hrec', fv', hpp'⟩ := hch c hc
          obtain ⟨hb', _, _⟩ := from_mbox_object_msg_inv dec rec' fv' _ _ c hpp'
          exact ⟨hb', rec', hrec', fv', hpp'⟩

/-- C6 witness: on a two-record archive (a root and an ignored-sender reply)
the invariants hold of the state `read_mbox` actually builds. -/
theorem c6_witness :
    read_mbox (fun x => x) cfgIgnoreBob [recRoot, recReply] = .ok c6state
      ∧ ∀ p ∈ c6state.mbox_messages,
          p.2.body ≠ ""
          ∧ (∃ rec ∈ [recRoot, recReply], ∃ s, rec.subject = some s
              ∧ (cfgIgnoreBob.skip_subject ≠ "" →
                  pyIn cfgIgnoreBob.skip_subject s = false)
              ∧ ∃ fv m0,
                  Message.from_mbox_object (fun x => x) rec fv
                      cfgIgnoreBob.list_footer_start cfgIgnoreBob.skip_subject = .msg m0
                  ∧ m0.withChildren p.2.children = p.2)
          ∧ ∀ c ∈ p.2.children,
              c.body ≠ "" ∧ FromParser (fun x => x) cfgIgnoreBob [recRoot, recReply] c :=
  ⟨rfl, c6_bodies_nonempty_and_filtered (fun x => x) cfgIgnoreBob [recRoot, recReply]
    c6state rfl⟩

end DiscourseImporter
